import Mathlib

/-!
Verification development for the `dorky` command-line tool (`src/main.go`).

The Go program is embedded shallowly:
  * word normalization (`cleanWord`, `removeWhitespace`, `processWord`,
    `addWordToMap`, `readAndCleanWords`) becomes pure functions on
    `String` / `List Char`, with the word set modelled as a duplicate-free
    insertion list;
  * the effectful search flow (`searchPlatforms`, the six category search
    functions, `printResults`, file writes) becomes explicit state passing
    over a `Sys` record holding the trace of API calls, the printed lines
    and a name-indexed file system; remote API responses are supplied by an
    `Oracle` argument;
  * the regular expressions `^https?://(?:www\.)?([^/]+)` and `\s+` are
    embedded as executable functions on `List Char` with Go (leftmost-first,
    backtracking) match semantics;
  * `main` / `validateFlags` become `mainRun`, returning the exit code and
    the final `Sys`.
-/

namespace Dorky

/-! ### Configuration (the `config` struct and CLI flags) -/

/-- The `config` struct: one field per CLI flag of `main.go`. -/
structure Config where
  orgFlag : Bool
  repoFlag : Bool
  userFlag : Bool
  maxFlag : Int
  cleanFlag : Bool
  ghOnlyFlag : Bool
  glOnlyFlag : Bool
  simpleFlag : Bool
  verboseFlag : Bool
deriving DecidableEq, Repr

/-! ### The URL-cleaning regular expression `^https?://(?:www\.)?([^/]+)`

`dropPfx p cs` drops the literal prefix `p` from `cs` (`none` when `p` is
not a prefix).  `takeGroup` is the submatch of `([^/]+)` at the current
position, `hostMatch` adds the optional greedy `(?:www\.)?` with Go's
backtracking semantics, and `schemeRest` consumes `https?://`. -/

def dropPfx : List Char → List Char → Option (List Char)
  | [], cs => some cs
  | _ :: _, [] => none
  | p :: ps, c :: cs => if p = c then dropPfx ps cs else none

def takeGroup (cs : List Char) : Option (List Char) :=
  let t := cs.takeWhile (fun c => c ≠ '/')
  if t = [] then none else some t

def hostMatch (rest : List Char) : Option (List Char) :=
  match dropPfx "www.".data rest with
  | some r =>
    match takeGroup r with
    | some g => some g
    | none => takeGroup rest
  | none => takeGroup rest

def schemeRest (cs : List Char) : Option (List Char) :=
  match dropPfx "https://".data cs with
  | some r => some r
  | none => dropPfx "http://".data cs

/-- First capturing group of `urlRegexp` on `cs`, `none` when the pattern
does not match. -/
def cleanWordCore (cs : List Char) : Option (List Char) :=
  match schemeRest cs with
  | some rest => hostMatch rest
  | none => none

/-- `cleanWord` of `main.go`: `urlRegexp.FindStringSubmatch`; on a match the
first capturing group is returned, otherwise the word is unchanged. -/
def cleanWord (word : String) : String :=
  match cleanWordCore word.data with
  | some g => String.mk g
  | none => word

/-! ### Whitespace handling: the regular expression `\s+`

Go's RE2 class `\s` is `[\t\n\f\r ]`. `ReplaceAllString(w, "")` deletes all
whitespace characters; `ReplaceAllString(w, "-")` maps each maximal
whitespace run to a single hyphen (`collapseSpaces`). -/

def reSpace (c : Char) : Bool :=
  c = '\t' || c = '\n' || c = '\x0c' || c = '\r' || c = ' '

def collapseSpaces : List Char → List Char
  | [] => []
  | [c] => if reSpace c then ['-'] else [c]
  | c1 :: c2 :: rest =>
    if reSpace c1 && reSpace c2 then collapseSpaces (c2 :: rest)
    else (if reSpace c1 then '-' else c1) :: collapseSpaces (c2 :: rest)

/-- `spaceRegexp.ReplaceAllString(word, "")`. -/
def removedSpacesOf (word : String) : String :=
  String.mk (word.data.filter (fun c => !reSpace c))

/-- `spaceRegexp.ReplaceAllString(word, "-")`. -/
def withHyphensOf (word : String) : String :=
  String.mk (collapseSpaces word.data)

/-- `removeWhitespace` of `main.go`: both derived forms joined by `"\n"`. -/
def removeWhitespace (word : String) : String :=
  removedSpacesOf word ++ "\n" ++ withHyphensOf word

/-! ### The word set (`map[string]struct{}`), modelled as an insertion list -/

def addWordToMap (words : List String) (word : String) : List String :=
  if word ∈ words then words else words ++ [word]

/-- `strings.Split cs "\n"` on the character-list level. -/
def splitNL : List Char → List (List Char)
  | [] => [[]]
  | c :: rest =>
    match splitNL rest with
    | [] => [[]]
    | h :: t => if c = '\n' then [] :: h :: t else (c :: h) :: t

/-- `processWord` of `main.go`: optionally URL-clean the token, store it,
then store every line of `removeWhitespace` of it. -/
def processWord (word : String) (words : List String) (cfg : Config) : List String :=
  let word := if cfg.cleanFlag then cleanWord word else word
  let words := addWordToMap words word
  let word := removeWhitespace word
  let wordLines := (splitNL word.data).map String.mk
  wordLines.foldl addWordToMap words

/-- `unicode.IsSpace` for `strings.TrimSpace` (stdin lines). -/
def goIsSpace (c : Char) : Bool :=
  c = '\t' || c = '\n' || c = '\x0b' || c = '\x0c' || c = '\r' || c = ' '
    || c = '\x85' || c = '\xa0'

def trimSpace (cs : List Char) : List Char :=
  ((cs.dropWhile goIsSpace).reverse.dropWhile goIsSpace).reverse

/-- `readAndCleanWords` of `main.go`: positional arguments when present,
otherwise trimmed stdin lines; an unreadable stdin is an error. -/
def readAndCleanWords (cfg : Config) (args : List String)
    (stdin : Except String (List String)) : Except String (List String) :=
  if args ≠ [] then
    .ok (args.foldl (fun ws w => processWord w ws cfg) [])
  else
    match stdin with
    | .error e => .error e
    | .ok lines =>
      .ok (lines.foldl (fun ws line => processWord (String.mk (trimSpace line.data)) ws cfg) [])

/-! ### Effect model: API calls, printed output, file system

Each remote request issued by the program is one `ApiCall`; an `Oracle`
supplies the remote responses (a list of extracted display names, or an
error string).  `Sys` records the trace of issued calls, the lines printed
to standard output, and the files as a name-indexed association list. -/

inductive ApiCall where
  | ghSearchUsers (q : String) (per : Int)
  | ghSearchRepos (q : String) (per : Int)
  | glListGroups (q : String) (per : Int)
  | glListUsers (q : String) (per : Int)
  | glListProjects (q : String) (per : Int)
deriving DecidableEq, Repr

def ApiCall.isGitHub : ApiCall → Bool
  | .ghSearchUsers _ _ => true
  | .ghSearchRepos _ _ => true
  | _ => false

def Oracle : Type := ApiCall → Except String (List String)

structure Sys where
  calls : List ApiCall
  out : List String
  fs : List (String × List String)
deriving DecidableEq, Repr

def sys0 : Sys := { calls := [], out := [], fs := [] }

def recordCall (s : Sys) (c : ApiCall) : Sys :=
  { s with calls := s.calls ++ [c] }

def printLine (s : Sys) (line : String) : Sys :=
  { s with out := s.out ++ [line] }

/-- `verbosePrint` of `main.go`: printed only when `-v` is set. -/
def verbosePrint (cfg : Config) (s : Sys) (line : String) : Sys :=
  if cfg.verboseFlag then printLine s line else s

/-- `printResults` of `main.go`. -/
def printResults (cfg : Config) (s : Sys) (header : String) (results : List String) : Sys :=
  if cfg.simpleFlag then { s with out := s.out ++ results }
  else { s with out := s.out ++ [header ++ ":"] ++ results.map (fun r => "- " ++ r) }

def setFile : List (String × List String) → String → List String → List (String × List String)
  | [], name, v => [(name, v)]
  | (m, w) :: rest, name, v =>
    if m = name then (name, v) :: rest else (m, w) :: setFile rest name v

def getFile : List (String × List String) → String → Option (List String)
  | [], _ => none
  | (m, w) :: rest, name => if m = name then some w else getFile rest name

def appendFileLine (fs : List (String × List String)) (name : String) (line : String) :
    List (String × List String) :=
  setFile fs name (((getFile fs name).getD []) ++ [line])

/-- `os.Create` (truncate to empty) followed by one `f.WriteString` per
result line. -/
def writeLines (s : Sys) (name : String) (lines : List String) : Sys :=
  { s with fs := lines.foldl (fun fs line => appendFileLine fs name line) (setFile s.fs name []) }

/-! ### The six category search functions -/

def searchGitHubOrganizations (oracle : Oracle) (cfg : Config) (query : String)
    (maxResults : Int) (s : Sys) : Sys :=
  let call := ApiCall.ghSearchUsers ("type:org " ++ query) maxResults
  let s := recordCall s call
  match oracle call with
  | .error e => printLine s ("Error searching organizations: " ++ e)
  | .ok orgLogins =>
    let s := printResults cfg s ("GitHub organizations matching \x27" ++ query ++ "\x27") orgLogins
    writeLines s "github_organizations.txt" orgLogins

def searchGitHubRepositories (oracle : Oracle) (cfg : Config) (query : String)
    (maxResults : Int) (s : Sys) : Sys :=
  let call := ApiCall.ghSearchRepos query maxResults
  let s := recordCall s call
  match oracle call with
  | .error e => printLine s ("Error searching repositories: " ++ e)
  | .ok repoNames =>
    let s := printResults cfg s ("GitHub repositories matching \x27" ++ query ++ "\x27") repoNames
    writeLines s "github_repositories.txt" repoNames

def searchGitHubUsers (oracle : Oracle) (cfg : Config) (query : String)
    (maxResults : Int) (s : Sys) : Sys :=
  let call := ApiCall.ghSearchUsers ("type:user " ++ query) maxResults
  let s := recordCall s call
  match oracle call with
  | .error e => printLine s ("Error searching users: " ++ e)
  | .ok userLogins =>
    let s := printResults cfg s ("GitHub users matching \x27" ++ query ++ "\x27") userLogins
    writeLines s "github_users.txt" userLogins

/-- `searchGitLabGroupsAndUsers` of `main.go`: the group listing is issued
unconditionally; on success the group results are reported only under
`-o`, then the user listing is issued, reported only under `-u`. -/
def searchGitLabGroupsAndUsers (oracle : Oracle) (cfg : Config) (query : String)
    (maxResults : Int) (s : Sys) : Sys :=
  let gcall := ApiCall.glListGroups query maxResults
  let s := recordCall s gcall
  match oracle gcall with
  | .error e => printLine s ("Error searching GitLab groups: " ++ e)
  | .ok groupFullPaths =>
    let s :=
      if cfg.orgFlag then
        let s := printResults cfg s ("GitLab groups matching \x27" ++ query ++ "\x27") groupFullPaths
        writeLines s "gitlab_groups.txt" groupFullPaths
      else s
    let ucall := ApiCall.glListUsers query maxResults
    let s := recordCall s ucall
    match oracle ucall with
    | .error e => printLine s ("Error searching GitLab users: " ++ e)
    | .ok userUsernames =>
      if cfg.userFlag then
        let s := printResults cfg s ("GitLab users matching \x27" ++ query ++ "\x27") userUsernames
        writeLines s "gitlab_users.txt" userUsernames
      else s

def searchGitLabProjects (oracle : Oracle) (cfg : Config) (query : String)
    (maxResults : Int) (s : Sys) : Sys :=
  let call := ApiCall.glListProjects query maxResults
  let s := recordCall s call
  match oracle call with
  | .error e => printLine s ("Error searching GitLab projects: " ++ e)
  | .ok projectFullPaths =>
    let s := printResults cfg s ("GitLab projects matching \x27" ++ query ++ "\x27") projectFullPaths
    writeLines s "gitlab_projects.txt" projectFullPaths

/-! ### Per-platform dispatch (`searchGitHub`, `searchGitLab`)

The Go functions receive a possibly-`nil` client pointer and return
immediately when it is `nil`; the pointer is modelled as `Option Unit`. -/

def searchGitHub (oracle : Oracle) (client : Option Unit) (query : String)
    (cfg : Config) (s : Sys) : Sys :=
  match client with
  | none => s
  | some _ =>
    let s := if cfg.orgFlag then searchGitHubOrganizations oracle cfg query cfg.maxFlag s else s
    let s := if cfg.repoFlag then searchGitHubRepositories oracle cfg query cfg.maxFlag s else s
    if cfg.userFlag then searchGitHubUsers oracle cfg query cfg.maxFlag s else s

def searchGitLab (oracle : Oracle) (client : Option Unit) (query : String)
    (cfg : Config) (s : Sys) : Sys :=
  match client with
  | none => s
  | some _ =>
    let s :=
      if cfg.orgFlag || cfg.userFlag then
        searchGitLabGroupsAndUsers oracle cfg query cfg.maxFlag s
      else s
    if cfg.repoFlag then searchGitLabProjects oracle cfg query cfg.maxFlag s else s

/-! ### Client creation and the platform loop -/

/-- The process environment: `os.Getenv` (empty string when unset). -/
def Env : Type := String → String

/-- `createGitHubClient`: fails exactly when `GITHUB_ACCESS_TOKEN` is
empty; the rate-limited transport carried by the client is modelled
separately by `rateLimitedRoundTrip`. -/
def createGitHubClient (env : Env) : Except String Unit :=
  if env "GITHUB_ACCESS_TOKEN" = "" then
    .error "GITHUB_ACCESS_TOKEN environment variable is not set"
  else .ok ()

/-- `createGitLabClient`: fails exactly when `GITLAB_ACCESS_TOKEN` is
empty (`gitlab.NewClient` with a default base URL does not fail). -/
def createGitLabClient (env : Env) : Except String Unit :=
  if env "GITLAB_ACCESS_TOKEN" = "" then
    .error "GITLAB_ACCESS_TOKEN environment variable is not set"
  else .ok ()

def isOkE (r : Except String Unit) : Bool :=
  match r with
  | .ok _ => true
  | .error _ => false

/-- Body of the `for word := range words` loop of `searchPlatforms`:
`ghOk` / `glOk` are `ghErr == nil` / `glErr == nil`. -/
def searchWordStep (oracle : Oracle) (cfg : Config) (ghOk glOk : Bool)
    (s : Sys) (word : String) : Sys :=
  let s :=
    if !cfg.glOnlyFlag && ghOk then
      let s := verbosePrint cfg s ("Searching GitHub for word: " ++ word)
      searchGitHub oracle (some ()) word cfg s
    else s
  if !cfg.ghOnlyFlag && glOk then
    let s := verbosePrint cfg s ("Searching GitLab for word: " ++ word)
    searchGitLab oracle (some ()) word cfg s
  else s

/-- `searchPlatforms` of `main.go`. -/
def searchPlatforms (oracle : Oracle) (env : Env) (words : List String)
    (cfg : Config) (s : Sys) : Sys :=
  let ghErr := createGitHubClient env
  let glErr := createGitLabClient env
  let s :=
    match ghErr with
    | .error e => printLine s ("Error creating GitHub client: " ++ e)
    | .ok _ => s
  let s :=
    match glErr with
    | .error e => printLine s ("Error creating GitLab client: " ++ e)
    | .ok _ => s
  words.foldl (searchWordStep oracle cfg (isOkE ghErr) (isOkE glErr)) s

/-! ### `validateFlags` and `main` -/

def validateFlags (cfg : Config) : Bool :=
  cfg.orgFlag || cfg.repoFlag || cfg.userFlag

/-- `main` of `main.go` as a function from the parsed flags, positional
arguments, stdin contents, environment and remote oracle to the exit code
and the final effect state. -/
def mainRun (cfg : Config) (args : List String) (stdin : Except String (List String))
    (env : Env) (oracle : Oracle) : Nat × Sys :=
  if !validateFlags cfg then
    (1, { calls := [], out := ["At least one search flag (-o, -r, or -u) must be specified"], fs := [] })
  else
    let s := verbosePrint cfg sys0 "Flags validated."
    let s := verbosePrint cfg s "Reading and cleaning words..."
    match readAndCleanWords cfg args stdin with
    | .error e => (1, printLine s ("Error reading stdin: " ++ e))
    | .ok words =>
      let s := verbosePrint cfg s "Words cleaned."
      let s := verbosePrint cfg s "Searching platforms..."
      let s := searchPlatforms oracle env words cfg s
      (0, verbosePrint cfg s "Platform search completed.")

/-! ### The rate-limited transport -/

/-- `rateLimitedTransport.RoundTrip`: `limiterWait` is the outcome of
`t.limiter.Wait(ctx)`, `transport` the wrapped `RoundTrip`. -/
def rateLimitedRoundTrip {Req Resp : Type} (limiterWait : Except String Unit)
    (transport : Req → Except String Resp) (req : Req) : Except String Resp :=
  match limiterWait with
  | .error e => .error e
  | .ok _ => transport req

/-! ### Specification-level folds and concrete fixtures -/

/-- Content that the "last successful call wins" reading of the output
files predicts: fold the per-word oracle outcome, keeping the previous
content on error. -/
def lastOkWrite (oracle : Oracle) (call : String → ApiCall) (words : List String)
    (init : Option (List String)) : Option (List String) :=
  words.foldl
    (fun acc w =>
      match oracle (call w) with
      | .ok rs => some rs
      | .error _ => acc)
    init

/-- `outExt s1 s2`: `s2`'s printed output extends `s1`'s (nothing printed
is ever retracted). -/
def outExt (s1 s2 : Sys) : Prop :=
  s1.out <+: s2.out

/-- The API calls one `searchGitHub` invocation issues for a word. -/
def ghCallsFor (cfg : Config) (w : String) : List ApiCall :=
  (if cfg.orgFlag then [ApiCall.ghSearchUsers ("type:org " ++ w) cfg.maxFlag] else []) ++
  (if cfg.repoFlag then [ApiCall.ghSearchRepos w cfg.maxFlag] else []) ++
  (if cfg.userFlag then [ApiCall.ghSearchUsers ("type:user " ++ w) cfg.maxFlag] else [])

/-- The API calls one `searchGitLab` invocation issues for a word: the user
listing happens only when the group listing succeeded. -/
def glCallsFor (oracle : Oracle) (cfg : Config) (w : String) : List ApiCall :=
  (if cfg.orgFlag || cfg.userFlag then
    ApiCall.glListGroups w cfg.maxFlag ::
      (match oracle (ApiCall.glListGroups w cfg.maxFlag) with
       | .ok _ => [ApiCall.glListUsers w cfg.maxFlag]
       | .error _ => [])
  else []) ++
  (if cfg.repoFlag then [ApiCall.glListProjects w cfg.maxFlag] else [])

/-- The API calls one loop iteration of `searchPlatforms` issues. -/
def stepCallsFor (oracle : Oracle) (cfg : Config) (ghOk glOk : Bool) (w : String) :
    List ApiCall :=
  (if !cfg.glOnlyFlag && ghOk then ghCallsFor cfg w else []) ++
  (if !cfg.ghOnlyFlag && glOk then glCallsFor oracle cfg w else [])

/-- All API calls a full `searchPlatforms` loop issues, in order. -/
def runCallsFor (oracle : Oracle) (cfg : Config) (ghOk glOk : Bool) :
    List String → List ApiCall
  | [] => []
  | w :: ws => stepCallsFor oracle cfg ghOk glOk w ++ runCallsFor oracle cfg ghOk glOk ws

def cfgAll : Config :=
  { orgFlag := true, repoFlag := true, userFlag := true, maxFlag := 10, cleanFlag := false,
    ghOnlyFlag := false, glOnlyFlag := false, simpleFlag := false, verboseFlag := false }

def cfgOrgOnly : Config :=
  { orgFlag := true, repoFlag := false, userFlag := false, maxFlag := 10, cleanFlag := false,
    ghOnlyFlag := false, glOnlyFlag := false, simpleFlag := false, verboseFlag := false }

def cfgUserOnly : Config :=
  { orgFlag := false, repoFlag := false, userFlag := true, maxFlag := 10, cleanFlag := false,
    ghOnlyFlag := false, glOnlyFlag := false, simpleFlag := false, verboseFlag := false }

def cfgGlRestricted : Config :=
  { orgFlag := true, repoFlag := false, userFlag := false, maxFlag := 10, cleanFlag := false,
    ghOnlyFlag := false, glOnlyFlag := true, simpleFlag := false, verboseFlag := false }

def cfgBothRestricted : Config :=
  { orgFlag := true, repoFlag := false, userFlag := false, maxFlag := 10, cleanFlag := false,
    ghOnlyFlag := true, glOnlyFlag := true, simpleFlag := false, verboseFlag := false }

def cfgNoCategory : Config :=
  { orgFlag := false, repoFlag := false, userFlag := false, maxFlag := 10, cleanFlag := false,
    ghOnlyFlag := false, glOnlyFlag := false, simpleFlag := false, verboseFlag := false }

def envBothTokens : Env := fun _ => "tok"

def envNoGitHubToken : Env := fun name => if name = "GITHUB_ACCESS_TOKEN" then "" else "tok"

def oracleAllErr : Oracle := fun _ => .error "boom"

def oracleAllOk : Oracle := fun _ => .ok ["alpha"]

/-! ## Lemmas: state projections -/

@[simp]
theorem recordCall_calls (s : Sys) (c : ApiCall) : (recordCall s c).calls = s.calls ++ [c] := rfl

@[simp]
theorem recordCall_out (s : Sys) (c : ApiCall) : (recordCall s c).out = s.out := rfl

@[simp]
theorem recordCall_fs (s : Sys) (c : ApiCall) : (recordCall s c).fs = s.fs := rfl

@[simp]
theorem printLine_calls (s : Sys) (l : String) : (printLine s l).calls = s.calls := rfl

@[simp]
theorem printLine_out (s : Sys) (l : String) : (printLine s l).out = s.out ++ [l] := rfl

@[simp]
theorem printLine_fs (s : Sys) (l : String) : (printLine s l).fs = s.fs := rfl

@[simp]
theorem verbosePrint_calls (cfg : Config) (s : Sys) (l : String) :
    (verbosePrint cfg s l).calls = s.calls := by
  unfold verbosePrint
  split <;> rfl

@[simp]
theorem verbosePrint_fs (cfg : Config) (s : Sys) (l : String) :
    (verbosePrint cfg s l).fs = s.fs := by
  unfold verbosePrint
  split <;> rfl

@[simp]
theorem printResults_calls (cfg : Config) (s : Sys) (h : String) (rs : List String) :
    (printResults cfg s h rs).calls = s.calls := by
  unfold printResults
  split <;> rfl

@[simp]
theorem printResults_fs (cfg : Config) (s : Sys) (h : String) (rs : List String) :
    (printResults cfg s h rs).fs = s.fs := by
  unfold printResults
  split <;> rfl

@[simp]
theorem writeLines_calls (s : Sys) (n : String) (ls : List String) :
    (writeLines s n ls).calls = s.calls := rfl

@[simp]
theorem writeLines_out (s : Sys) (n : String) (ls : List String) :
    (writeLines s n ls).out = s.out := rfl

/-! ## Lemmas: the file-system model -/

theorem getFile_setFile (fs : List (String × List String)) (n : String) (v : List String)
    (m : String) : getFile (setFile fs n v) m = if n = m then some v else getFile fs m := by
  induction fs with
  | nil => by_cases h : n = m <;> simp [setFile, getFile, h]
  | cons p rest ih =>
    obtain ⟨k, w⟩ := p
    by_cases hk : k = n
    · subst hk
      by_cases h : k = m <;> simp [setFile, getFile, h]
    · by_cases h : k = m
      · subst h
        have hnm : ¬ n = k := fun he => hk he.symm
        simp [setFile, getFile, hk, hnm]
      · simp [setFile, getFile, hk, h, ih]

theorem getFile_appendFold (ls : List String) (fs : List (String × List String))
    (n : String) (acc : List String) (h : getFile fs n = some acc) :
    getFile (ls.foldl (fun fs line => appendFileLine fs n line) fs) n = some (acc ++ ls) := by
  induction ls generalizing fs acc with
  | nil => simpa using h
  | cons l rest ih =>
    have hstep : getFile (appendFileLine fs n l) n = some (acc ++ [l]) := by
      unfold appendFileLine
      simp [getFile_setFile, h]
    have := ih (appendFileLine fs n l) (acc ++ [l]) hstep
    simpa [List.append_assoc] using this

theorem getFile_appendFold_ne (ls : List String) (fs : List (String × List String))
    (n m : String) (h : ¬ n = m) :
    getFile (ls.foldl (fun fs line => appendFileLine fs n line) fs) m = getFile fs m := by
  induction ls generalizing fs with
  | nil => rfl
  | cons l rest ih =>
    have hstep : getFile (appendFileLine fs n l) m = getFile fs m := by
      unfold appendFileLine
      simp [getFile_setFile, h]
    simp only [List.foldl_cons]
    rw [ih, hstep]

theorem getFile_writeLines (s : Sys) (n : String) (ls : List String) (m : String) :
    getFile (writeLines s n ls).fs m = if n = m then some ls else getFile s.fs m := by
  unfold writeLines
  by_cases h : n = m
  · subst h
    simp only [if_pos rfl]
    have h0 : getFile (setFile s.fs n []) n = some [] := by simp [getFile_setFile]
    simpa using getFile_appendFold ls (setFile s.fs n []) n [] h0
  · simp only [if_neg h]
    rw [getFile_appendFold_ne ls _ n m h, getFile_setFile, if_neg h]

/-! ## Lemmas: word-set membership -/

theorem mem_addWordToMap (ws : List String) (w x : String) :
    x ∈ addWordToMap ws w ↔ x ∈ ws ∨ x = w := by
  unfold addWordToMap
  by_cases h : w ∈ ws
  · simp only [if_pos h]
    constructor
    · exact Or.inl
    · rintro (hx | rfl)
      · exact hx
      · exact h
  · simp [if_neg h]

/-! ## Lemmas: whitespace variants and line splitting -/

theorem collapseSpaces_no_space (cs : List Char) :
    ∀ c ∈ collapseSpaces cs, reSpace c = false := by
  induction cs with
  | nil => intro c hc; simp [collapseSpaces] at hc
  | cons c1 rest ih =>
    cases rest with
    | nil =>
      intro c hc
      by_cases h : reSpace c1 = true <;> simp [collapseSpaces, h] at hc <;> subst hc
      · rfl
      · simpa using h
    | cons c2 rest2 =>
      intro c hc
      by_cases h12 : (reSpace c1 && reSpace c2) = true
      · rw [collapseSpaces, if_pos h12] at hc
        exact ih c hc
      · rw [collapseSpaces, if_neg h12] at hc
        rcases List.mem_cons.mp hc with hc | hc
        · subst hc
          cases h1 : reSpace c1 with
          | true =>
            rw [if_pos rfl]
            decide
          | false =>
            rw [if_neg (by decide : ¬ false = true)]
            exact h1
        · exact ih c hc

theorem splitNL_ne_nil (cs : List Char) : splitNL cs ≠ [] := by
  cases cs with
  | nil => simp [splitNL]
  | cons c rest =>
    rw [splitNL]
    cases h : splitNL rest with
    | nil => simp
    | cons h1 t1 => by_cases hc : c = '\n' <;> simp [hc]

theorem splitNL_no_nl (b : List Char) (hb : '\n' ∉ b) : splitNL b = [b] := by
  induction b with
  | nil => rfl
  | cons c rest ih =>
    have hc : c ≠ '\n' := fun he => hb (he ▸ List.mem_cons_self c rest)
    have hrest : '\n' ∉ rest := fun hm => hb (List.mem_cons_of_mem c hm)
    rw [splitNL, ih hrest]
    simp [hc]

theorem splitNL_append (a b : List Char) (ha : '\n' ∉ a) :
    splitNL (a ++ '\n' :: b) = a :: splitNL b := by
  induction a with
  | nil =>
    simp only [List.nil_append]
    rw [splitNL]
    rcases h : splitNL b with _ | ⟨h1, t1⟩
    · exact absurd h (splitNL_ne_nil b)
    · simp
  | cons c a2 ih =>
    have hc : c ≠ '\n' := fun he => ha (he ▸ List.mem_cons_self c a2)
    have ha2 : '\n' ∉ a2 := fun hm => ha (List.mem_cons_of_mem c hm)
    simp only [List.cons_append]
    rw [splitNL, ih ha2]
    simp [hc]

theorem removeWhitespace_data (w : String) :
    (removeWhitespace w).data =
      (removedSpacesOf w).data ++ '\n' :: (withHyphensOf w).data := by
  have h : ∀ x y : String, (x ++ y).data = x.data ++ y.data := fun x y => rfl
  show ((removedSpacesOf w ++ "\n") ++ withHyphensOf w).data = _
  rw [h, h]
  simp [List.append_assoc]

theorem processWord_eq (word : String) (words : List String) (cfg : Config) :
    processWord word words cfg =
      addWordToMap
        (addWordToMap
          (addWordToMap words (if cfg.cleanFlag then cleanWord word else word))
          (removedSpacesOf (if cfg.cleanFlag then cleanWord word else word)))
        (withHyphensOf (if cfg.cleanFlag then cleanWord word else word)) := by
  show ((splitNL (removeWhitespace (if cfg.cleanFlag then cleanWord word else word)).data).map
      String.mk).foldl addWordToMap
      (addWordToMap words (if cfg.cleanFlag then cleanWord word else word)) = _
  generalize (if cfg.cleanFlag then cleanWord word else word) = base
  have h1 : '\n' ∉ (removedSpacesOf base).data := by
    intro hm
    have hm2 : '\n' ∈ base.data.filter (fun c => !reSpace c) := hm
    have := (List.mem_filter.mp hm2).2
    exact absurd this (by decide)
  have h2 : '\n' ∉ (withHyphensOf base).data := by
    intro hm
    have := collapseSpaces_no_space base.data '\n' hm
    exact absurd this (by decide)
  rw [removeWhitespace_data, splitNL_append _ _ h1, splitNL_no_nl _ h2]
  rfl

/-- Claim C1: after normalization of an input token the word set contains
the (possibly URL-cleaned) token, its whitespace-removed variant and its
whitespace-to-hyphen variant, and nothing else beyond what was already in
the set: up to three new entries. -/
theorem processWord_variants (word : String) (words : List String) (cfg : Config) :
    (if cfg.cleanFlag then cleanWord word else word) ∈ processWord word words cfg ∧
    removedSpacesOf (if cfg.cleanFlag then cleanWord word else word) ∈ processWord word words cfg ∧
    withHyphensOf (if cfg.cleanFlag then cleanWord word else word) ∈ processWord word words cfg ∧
    ∀ w ∈ processWord word words cfg,
      w ∈ words ∨ w = (if cfg.cleanFlag then cleanWord word else word) ∨
        w = removedSpacesOf (if cfg.cleanFlag then cleanWord word else word) ∨
        w = withHyphensOf (if cfg.cleanFlag then cleanWord word else word) := by
  simp only [processWord_eq, mem_addWordToMap]
  refine ⟨by tauto, by tauto, by tauto, ?_⟩
  intro w hw
  tauto

theorem processWord_variants_witness : "foobar" ∈ processWord "foo bar" [] cfgAll := by
  have h := (processWord_variants "foo bar" [] cfgAll).2.1
  have h2 : removedSpacesOf (if cfgAll.cleanFlag then cleanWord "foo bar" else "foo bar")
      = "foobar" := by decide
  exact h2 ▸ h

/-! ## Lemmas: the URL-cleaning pattern -/

theorem dropPfx_append (p x : List Char) : dropPfx p (p ++ x) = some x := by
  induction p with
  | nil => rfl
  | cons c ps ih => simp [dropPfx, ih]

theorem dropPfx_none_of_no_pfx (p cs : List Char) (h : p.isPrefixOf cs = false) :
    dropPfx p cs = none := by
  induction p generalizing cs with
  | nil => simp [List.isPrefixOf] at h
  | cons a ps ih =>
    cases cs with
    | nil => rfl
    | cons b cs2 =>
      rw [List.isPrefixOf] at h
      by_cases hab : a = b
      · subst hab
        have h2 : ps.isPrefixOf cs2 = false := by simpa using h
        simp [dropPfx, ih cs2 h2]
      · simp [dropPfx, hab]

theorem takeWhile_append_stop {α : Type} (p : α → Bool) (a : List α) (b : α) (r : List α)
    (ha : ∀ c ∈ a, p c = true) (hb : p b = false) :
    (a ++ b :: r).takeWhile p = a := by
  induction a with
  | nil => simp [List.takeWhile_cons, hb]
  | cons c a2 ih =>
    have hc : p c = true := ha c (List.mem_cons_self c a2)
    simp [List.takeWhile_cons, hc, ih (fun d hd => ha d (List.mem_cons_of_mem c hd))]

/-- Claim C3: URL cleaning returns the first capturing group of
`^https?://(?:www\.)?([^/]+)` on a match (`https://www.example.com/path`
gives `example.com`, and in general `https://www.<host>/<anything>` gives
`<host>` for a nonempty slash-free `<host>`), and is the identity on any
token without a scheme prefix. -/
theorem cleanWord_spec :
    cleanWord "https://www.example.com/path" = "example.com" ∧
    (∀ w : String, "http://".data.isPrefixOf w.data = false →
      "https://".data.isPrefixOf w.data = false → cleanWord w = w) ∧
    (∀ host rest : List Char, host ≠ [] → (∀ c ∈ host, c ≠ '/') →
      cleanWord (String.mk ("https://www.".data ++ host ++ '/' :: rest)) = String.mk host) := by
  have hdm : ∀ l : List Char, (String.mk l).data = l := fun l => rfl
  refine ⟨by decide, ?_, ?_⟩
  · intro w h1 h2
    have hs : schemeRest w.data = none := by
      simp [schemeRest, dropPfx_none_of_no_pfx _ _ h1, dropPfx_none_of_no_pfx _ _ h2]
    have hcore : cleanWordCore w.data = none := by simp [cleanWordCore, hs]
    simp [cleanWord, hcore]
  · intro host rest hne hns
    have h3 : (host ++ '/' :: rest).takeWhile (fun c => decide (c ≠ '/')) = host := by
      refine takeWhile_append_stop _ host '/' rest (fun c hc => ?_) (by decide)
      exact decide_eq_true (hns c hc)
    have ht : takeGroup (host ++ '/' :: rest) = some host := by
      simp only [takeGroup, h3]
      simp [hne]
    have hH : hostMatch ('w' :: 'w' :: 'w' :: '.' :: (host ++ '/' :: rest)) = some host := by
      simp [hostMatch, dropPfx, ht]
    have hcore : cleanWordCore ('h' :: 't' :: 't' :: 'p' :: 's' :: ':' :: '/' :: '/' ::
        'w' :: 'w' :: 'w' :: '.' :: (host ++ '/' :: rest)) = some host := by
      simp [cleanWordCore, schemeRest, dropPfx, hH]
    simp [cleanWord, hdm, hcore, List.append_assoc]

theorem cleanWord_spec_witness :
    cleanWord "plainword" = "plainword" ∧ cleanWord (String.mk ("https://www.".data ++ ['e', 'x'] ++ '/' :: "p".data)) = String.mk ['e', 'x'] :=
  ⟨cleanWord_spec.2.1 "plainword" (by decide) (by decide),
   cleanWord_spec.2.2 ['e', 'x'] "p".data (by decide) (by decide)⟩

/-! ## Lemmas: the six category search functions -/

theorem ghOrgs_calls (oracle : Oracle) (cfg : Config) (q : String) (mx : Int) (s : Sys) :
    (searchGitHubOrganizations oracle cfg q mx s).calls
      = s.calls ++ [ApiCall.ghSearchUsers ("type:org " ++ q) mx] := by
  unfold searchGitHubOrganizations
  cases h : oracle (ApiCall.ghSearchUsers ("type:org " ++ q) mx) <;> simp [h]

theorem ghRepos_calls (oracle : Oracle) (cfg : Config) (q : String) (mx : Int) (s : Sys) :
    (searchGitHubRepositories oracle cfg q mx s).calls
      = s.calls ++ [ApiCall.ghSearchRepos q mx] := by
  unfold searchGitHubRepositories
  cases h : oracle (ApiCall.ghSearchRepos q mx) <;> simp [h]

theorem ghUsers_calls (oracle : Oracle) (cfg : Config) (q : String) (mx : Int) (s : Sys) :
    (searchGitHubUsers oracle cfg q mx s).calls
      = s.calls ++ [ApiCall.ghSearchUsers ("type:user " ++ q) mx] := by
  unfold searchGitHubUsers
  cases h : oracle (ApiCall.ghSearchUsers ("type:user " ++ q) mx) <;> simp [h]

theorem glProj_calls (oracle : Oracle) (cfg : Config) (q : String) (mx : Int) (s : Sys) :
    (searchGitLabProjects oracle cfg q mx s).calls
      = s.calls ++ [ApiCall.glListProjects q mx] := by
  unfold searchGitLabProjects
  cases h : oracle (ApiCall.glListProjects q mx) <;> simp [h]

theorem glGU_calls (oracle : Oracle) (cfg : Config) (q : String) (mx : Int) (s : Sys) :
    (searchGitLabGroupsAndUsers oracle cfg q mx s).calls
      = s.calls ++ ApiCall.glListGroups q mx ::
          (match oracle (ApiCall.glListGroups q mx) with
           | .ok _ => [ApiCall.glListUsers q mx]
           | .error _ => []) := by
  unfold searchGitLabGroupsAndUsers
  cases h1 : oracle (ApiCall.glListGroups q mx) with
  | error e => simp [h1]
  | ok gs =>
    cases h2 : oracle (ApiCall.glListUsers q mx) <;>
      by_cases ho : cfg.orgFlag <;> by_cases hu : cfg.userFlag <;> simp [h1, h2, ho, hu]

theorem ghOrgs_fs (oracle : Oracle) (cfg : Config) (q : String) (mx : Int) (s : Sys)
    (m : String) :
    getFile (searchGitHubOrganizations oracle cfg q mx s).fs m
      = match oracle (ApiCall.ghSearchUsers ("type:org " ++ q) mx) with
        | .ok rs => if "github_organizations.txt" = m then some rs else getFile s.fs m
        | .error _ => getFile s.fs m := by
  unfold searchGitHubOrganizations
  cases h : oracle (ApiCall.ghSearchUsers ("type:org " ++ q) mx) <;>
    simp [h, getFile_writeLines]

theorem ghRepos_fs (oracle : Oracle) (cfg : Config) (q : String) (mx : Int) (s : Sys)
    (m : String) :
    getFile (searchGitHubRepositories oracle cfg q mx s).fs m
      = match oracle (ApiCall.ghSearchRepos q mx) with
        | .ok rs => if "github_repositories.txt" = m then some rs else getFile s.fs m
        | .error _ => getFile s.fs m := by
  unfold searchGitHubRepositories
  cases h : oracle (ApiCall.ghSearchRepos q mx) <;> simp [h, getFile_writeLines]

theorem ghUsers_fs (oracle : Oracle) (cfg : Config) (q : String) (mx : Int) (s : Sys)
    (m : String) :
    getFile (searchGitHubUsers oracle cfg q mx s).fs m
      = match oracle (ApiCall.ghSearchUsers ("type:user " ++ q) mx) with
        | .ok rs => if "github_users.txt" = m then some rs else getFile s.fs m
        | .error _ => getFile s.fs m := by
  unfold searchGitHubUsers
  cases h : oracle (ApiCall.ghSearchUsers ("type:user " ++ q) mx) <;> simp [h, getFile_writeLines]

theorem glProj_fs (oracle : Oracle) (cfg : Config) (q : String) (mx : Int) (s : Sys)
    (m : String) :
    getFile (searchGitLabProjects oracle cfg q mx s).fs m
      = match oracle (ApiCall.glListProjects q mx) with
        | .ok rs => if "gitlab_projects.txt" = m then some rs else getFile s.fs m
        | .error _ => getFile s.fs m := by
  unfold searchGitLabProjects
  cases h : oracle (ApiCall.glListProjects q mx) <;> simp [h, getFile_writeLines]

theorem glGU_fs_ne (oracle : Oracle) (cfg : Config) (q : String) (mx : Int) (s : Sys)
    (m : String) (h1 : ¬ "gitlab_groups.txt" = m) (h2 : ¬ "gitlab_users.txt" = m) :
    getFile (searchGitLabGroupsAndUsers oracle cfg q mx s).fs m = getFile s.fs m := by
  unfold searchGitLabGroupsAndUsers
  cases hg : oracle (ApiCall.glListGroups q mx) with
  | error e => simp [hg]
  | ok gs =>
    cases hu2 : oracle (ApiCall.glListUsers q mx) <;>
      by_cases ho : cfg.orgFlag <;> by_cases hu : cfg.userFlag <;>
        simp [hg, hu2, ho, hu, getFile_writeLines, h1, h2]

theorem glGU_groupsFile_of_no_org (oracle : Oracle) (cfg : Config) (q : String) (mx : Int)
    (s : Sys) (ho : cfg.orgFlag = false) :
    getFile (searchGitLabGroupsAndUsers oracle cfg q mx s).fs "gitlab_groups.txt"
      = getFile s.fs "gitlab_groups.txt" := by
  unfold searchGitLabGroupsAndUsers
  cases hg : oracle (ApiCall.glListGroups q mx) with
  | error e => simp [hg]
  | ok gs =>
    cases hu2 : oracle (ApiCall.glListUsers q mx) <;>
      by_cases hu : cfg.userFlag <;> simp [hg, hu2, ho, hu, getFile_writeLines]

theorem ghOrgs_error (oracle : Oracle) (cfg : Config) (q : String) (mx : Int) (s : Sys)
    (e : String) (h : oracle (ApiCall.ghSearchUsers ("type:org " ++ q) mx) = .error e) :
    searchGitHubOrganizations oracle cfg q mx s =
      { s with
        calls := s.calls ++ [ApiCall.ghSearchUsers ("type:org " ++ q) mx],
        out := s.out ++ ["Error searching organizations: " ++ e] } := by
  unfold searchGitHubOrganizations
  simp only [h]
  rfl

theorem glGU_error (oracle : Oracle) (cfg : Config) (q : String) (mx : Int) (s : Sys)
    (e : String) (h : oracle (ApiCall.glListGroups q mx) = .error e) :
    searchGitLabGroupsAndUsers oracle cfg q mx s =
      { s with
        calls := s.calls ++ [ApiCall.glListGroups q mx],
        out := s.out ++ ["Error searching GitLab groups: " ++ e] } := by
  unfold searchGitLabGroupsAndUsers
  simp only [h]
  rfl

theorem glProj_error (oracle : Oracle) (cfg : Config) (q : String) (mx : Int) (s : Sys)
    (e : String) (h : oracle (ApiCall.glListProjects q mx) = .error e) :
    searchGitLabProjects oracle cfg q mx s =
      { s with
        calls := s.calls ++ [ApiCall.glListProjects q mx],
        out := s.out ++ ["Error searching GitLab projects: " ++ e] } := by
  unfold searchGitLabProjects
  simp only [h]
  rfl

/-! ## Lemmas: dispatch and the platform loop -/

theorem searchGitHub_calls (oracle : Oracle) (w : String) (cfg : Config) (s : Sys) :
    (searchGitHub oracle (some ()) w cfg s).calls = s.calls ++ ghCallsFor cfg w := by
  unfold searchGitHub ghCallsFor
  by_cases ho : cfg.orgFlag <;> by_cases hr : cfg.repoFlag <;> by_cases hu : cfg.userFlag <;>
    simp [ho, hr, hu, ghOrgs_calls, ghRepos_calls, ghUsers_calls, List.append_assoc]

theorem searchGitLab_calls (oracle : Oracle) (w : String) (cfg : Config) (s : Sys) :
    (searchGitLab oracle (some ()) w cfg s).calls = s.calls ++ glCallsFor oracle cfg w := by
  unfold searchGitLab glCallsFor
  by_cases hou : (cfg.orgFlag || cfg.userFlag) = true <;> by_cases hr : cfg.repoFlag <;>
    simp [hou, hr, glGU_calls, glProj_calls, List.append_assoc]

theorem searchWordStep_calls (oracle : Oracle) (cfg : Config) (ghOk glOk : Bool)
    (s : Sys) (w : String) :
    (searchWordStep oracle cfg ghOk glOk s w).calls
      = s.calls ++ stepCallsFor oracle cfg ghOk glOk w := by
  unfold searchWordStep stepCallsFor
  by_cases h1 : (!cfg.glOnlyFlag && ghOk) = true <;> by_cases h2 : (!cfg.ghOnlyFlag && glOk) = true <;>
    simp [h1, h2, searchGitHub_calls, searchGitLab_calls, List.append_assoc]

theorem foldl_step_calls (oracle : Oracle) (cfg : Config) (ghOk glOk : Bool)
    (words : List String) : ∀ s : Sys,
    ((words.foldl (searchWordStep oracle cfg ghOk glOk) s)).calls
      = s.calls ++ runCallsFor oracle cfg ghOk glOk words := by
  induction words with
  | nil => intro s; simp [runCallsFor]
  | cons w ws ih =>
    intro s
    simp only [List.foldl_cons, runCallsFor]
    rw [ih, searchWordStep_calls, List.append_assoc]

theorem searchPlatforms_calls (oracle : Oracle) (env : Env) (words : List String)
    (cfg : Config) (s : Sys) :
    (searchPlatforms oracle env words cfg s).calls
      = s.calls ++ runCallsFor oracle cfg
          (isOkE (createGitHubClient env)) (isOkE (createGitLabClient env)) words := by
  unfold searchPlatforms
  cases h1 : createGitHubClient env <;> cases h2 : createGitLabClient env <;>
    simp [h1, h2, foldl_step_calls, isOkE]

theorem glCallsFor_not_github (oracle : Oracle) (cfg : Config) (w : String) :
    ∀ c ∈ glCallsFor oracle cfg w, c.isGitHub = false := by
  intro c hc
  unfold glCallsFor at hc
  rcases List.mem_append.mp hc with h | h
  · by_cases hou : (cfg.orgFlag || cfg.userFlag) = true
    · rw [if_pos hou] at h
      rcases List.mem_cons.mp h with rfl | h
      · rfl
      · cases hg : oracle (ApiCall.glListGroups w cfg.maxFlag) <;> rw [hg] at h <;>
          simp at h
        subst h
        rfl
    · rw [if_neg hou] at h
      simp at h
  · by_cases hr : cfg.repoFlag = true
    · rw [if_pos hr] at h
      simp at h
      subst h
      rfl
    · rw [if_neg hr] at h
      simp at h

theorem runCallsFor_noGH (oracle : Oracle) (cfg : Config) (ghOk glOk : Bool)
    (words : List String) (h : (!cfg.glOnlyFlag && ghOk) = false) :
    ∀ c ∈ runCallsFor oracle cfg ghOk glOk words, c.isGitHub = false := by
  induction words with
  | nil => intro c hc; simp [runCallsFor] at hc
  | cons w ws ih =>
    intro c hc
    unfold runCallsFor at hc
    rcases List.mem_append.mp hc with hc | hc
    · unfold stepCallsFor at hc
      rw [h] at hc
      have hc2 : c ∈ (if (!cfg.ghOnlyFlag && glOk) = true then glCallsFor oracle cfg w else []) := by
        simpa using hc
      by_cases h2 : (!cfg.ghOnlyFlag && glOk) = true
      · rw [if_pos h2] at hc2
        exact glCallsFor_not_github oracle cfg w c hc2
      · rw [if_neg h2] at hc2
        simp at hc2
    · exact ih c hc

theorem mem_runCallsFor_ghOrg (oracle : Oracle) (cfg : Config) (ghOk glOk : Bool)
    (words : List String) (w : String) (hw : w ∈ words) (hgl : cfg.glOnlyFlag = false)
    (hgh : ghOk = true) (ho : cfg.orgFlag = true) :
    ApiCall.ghSearchUsers ("type:org " ++ w) cfg.maxFlag
      ∈ runCallsFor oracle cfg ghOk glOk words := by
  induction words with
  | nil => simp at hw
  | cons a ws ih =>
    unfold runCallsFor
    rcases List.mem_cons.mp hw with rfl | hw2
    · refine List.mem_append.mpr (Or.inl ?_)
      unfold stepCallsFor
      have hc : (!cfg.glOnlyFlag && ghOk) = true := by simp [hgl, hgh]
      rw [if_pos hc]
      refine List.mem_append.mpr (Or.inl ?_)
      unfold ghCallsFor
      rw [if_pos ho]
      simp
    · exact List.mem_append.mpr (Or.inr (ih hw2))

theorem mem_runCallsFor_glGroups (oracle : Oracle) (cfg : Config) (ghOk glOk : Bool)
    (words : List String) (w : String) (hw : w ∈ words) (hgh : cfg.ghOnlyFlag = false)
    (hgl : glOk = true) (hou : (cfg.orgFlag || cfg.userFlag) = true) :
    ApiCall.glListGroups w cfg.maxFlag ∈ runCallsFor oracle cfg ghOk glOk words := by
  induction words with
  | nil => simp at hw
  | cons a ws ih =>
    unfold runCallsFor
    rcases List.mem_cons.mp hw with rfl | hw2
    · refine List.mem_append.mpr (Or.inl ?_)
      unfold stepCallsFor
      have hc : (!cfg.ghOnlyFlag && glOk) = true := by simp [hgh, hgl]
      rw [if_pos hc]
      refine List.mem_append.mpr (Or.inr ?_)
      unfold glCallsFor
      rw [if_pos hou]
      simp
    · exact List.mem_append.mpr (Or.inr (ih hw2))

theorem runCallsFor_nil_of_both (oracle : Oracle) (cfg : Config) (ghOk glOk : Bool)
    (words : List String) (h1 : cfg.ghOnlyFlag = true) (h2 : cfg.glOnlyFlag = true) :
    runCallsFor oracle cfg ghOk glOk words = [] := by
  induction words with
  | nil => rfl
  | cons w ws ih =>
    unfold runCallsFor stepCallsFor
    simp [h1, h2, ih]

/-! ## Lemmas: file contents across the platform loop -/

theorem exceptMatch_const {α : Type} (e : Except String (List String)) (x : α) :
    (match e with | .ok _ => x | .error _ => x) = x := by
  cases e <;> rfl

theorem searchGitLab_fs_gh (oracle : Oracle) (w : String) (cfg : Config) (s : Sys)
    (m : String) (h1 : ¬ "gitlab_groups.txt" = m) (h2 : ¬ "gitlab_users.txt" = m)
    (h3 : ¬ "gitlab_projects.txt" = m) :
    getFile (searchGitLab oracle (some ()) w cfg s).fs m = getFile s.fs m := by
  unfold searchGitLab
  by_cases hou : (cfg.orgFlag || cfg.userFlag) = true <;> by_cases hr : cfg.repoFlag = true <;>
    cases hp : oracle (ApiCall.glListProjects w cfg.maxFlag) <;>
      simp [hou, hr, hp, glProj_fs, h3, glGU_fs_ne, h1, h2]

theorem searchGitHub_orgFile (oracle : Oracle) (w : String) (cfg : Config)
    (ho : cfg.orgFlag = true) : ∀ s : Sys,
    getFile (searchGitHub oracle (some ()) w cfg s).fs "github_organizations.txt"
      = match oracle (ApiCall.ghSearchUsers ("type:org " ++ w) cfg.maxFlag) with
        | .ok rs => some rs
        | .error _ => getFile s.fs "github_organizations.txt" := by
  intro s
  unfold searchGitHub
  by_cases hr : cfg.repoFlag = true <;> by_cases hu : cfg.userFlag = true <;>
    cases horg : oracle (ApiCall.ghSearchUsers ("type:org " ++ w) cfg.maxFlag) <;>
      simp [ho, hr, hu, horg, ghOrgs_fs, ghRepos_fs, ghUsers_fs, exceptMatch_const]

theorem searchWordStep_orgFile (oracle : Oracle) (cfg : Config) (glOk : Bool) (s : Sys)
    (w : String) (ho : cfg.orgFlag = true) (hgl : cfg.glOnlyFlag = false) :
    getFile (searchWordStep oracle cfg true glOk s w).fs "github_organizations.txt"
      = match oracle (ApiCall.ghSearchUsers ("type:org " ++ w) cfg.maxFlag) with
        | .ok rs => some rs
        | .error _ => getFile s.fs "github_organizations.txt" := by
  unfold searchWordStep
  have hc : (!cfg.glOnlyFlag && true) = true := by simp [hgl]
  rw [if_pos hc]
  have hGH := searchGitHub_orgFile oracle w cfg ho
      (verbosePrint cfg s ("Searching GitHub for word: " ++ w))
  by_cases h2 : (!cfg.ghOnlyFlag && glOk) = true
  · rw [if_pos h2]
    rw [searchGitLab_fs_gh oracle w cfg _ _ (by decide) (by decide) (by decide),
      verbosePrint_fs]
    rw [hGH]
    cases horg : oracle (ApiCall.ghSearchUsers ("type:org " ++ w) cfg.maxFlag) <;>
      simp [verbosePrint_fs]
  · rw [if_neg h2]
    rw [hGH]
    cases horg : oracle (ApiCall.ghSearchUsers ("type:org " ++ w) cfg.maxFlag) <;>
      simp [verbosePrint_fs]

theorem foldl_step_orgFile (oracle : Oracle) (cfg : Config)
    (ho : cfg.orgFlag = true) (hgl : cfg.glOnlyFlag = false) :
    ∀ (glOk : Bool) (words : List String) (s : Sys),
    getFile ((words.foldl (searchWordStep oracle cfg true glOk) s)).fs
        "github_organizations.txt"
      = lastOkWrite oracle (fun w => ApiCall.ghSearchUsers ("type:org " ++ w) cfg.maxFlag)
          words (getFile s.fs "github_organizations.txt") := by
  intro glOk words
  induction words with
  | nil => intro s; rfl
  | cons w ws ih =>
    intro s
    simp only [List.foldl_cons]
    rw [ih, searchWordStep_orgFile oracle cfg glOk s w ho hgl]
    rfl

theorem searchPlatforms_orgFile (oracle : Oracle) (env : Env) (words : List String)
    (cfg : Config) (s : Sys) (ho : cfg.orgFlag = true) (hgl : cfg.glOnlyFlag = false)
    (hgh : createGitHubClient env = .ok ()) :
    getFile (searchPlatforms oracle env words cfg s).fs "github_organizations.txt"
      = lastOkWrite oracle (fun w => ApiCall.ghSearchUsers ("type:org " ++ w) cfg.maxFlag)
          words (getFile s.fs "github_organizations.txt") := by
  unfold searchPlatforms
  cases hglc : createGitLabClient env
  all_goals
    simp only [hgh, hglc, isOkE]
    rw [foldl_step_orgFile oracle cfg ho hgl]
    try simp

/-! ## Lemmas: printed output only grows -/

theorem verbosePrint_out (cfg : Config) (s : Sys) (l : String) :
    (verbosePrint cfg s l).out = s.out ++ (if cfg.verboseFlag = true then [l] else []) := by
  unfold verbosePrint printLine
  split <;> simp

theorem printResults_out (cfg : Config) (s : Sys) (h : String) (rs : List String) :
    (printResults cfg s h rs).out
      = s.out ++ (if cfg.simpleFlag = true then rs
          else (h ++ ":") :: rs.map (fun r => "- " ++ r)) := by
  unfold printResults
  split <;> simp

theorem outExt_rfl (s : Sys) : outExt s s := List.prefix_rfl

theorem outExt_trans {s1 s2 s3 : Sys} (h1 : outExt s1 s2) (h2 : outExt s2 s3) :
    outExt s1 s3 := List.IsPrefix.trans h1 h2

theorem outExt_mem {s1 s2 : Sys} (h : outExt s1 s2) {x : String} (hx : x ∈ s1.out) :
    x ∈ s2.out := by
  obtain ⟨t, ht⟩ := h
  rw [← ht]
  exact List.mem_append.mpr (Or.inl hx)

theorem outExt_if (c : Prop) [Decidable c] {s t u : Sys} (h1 : outExt s t)
    (h2 : outExt s u) : outExt s (if c then t else u) := by
  split <;> assumption

theorem outExt_verbosePrint (cfg : Config) (s : Sys) (l : String) :
    outExt s (verbosePrint cfg s l) := by
  unfold outExt
  rw [verbosePrint_out]
  exact List.prefix_append _ _

theorem outExt_ghOrgs (oracle : Oracle) (cfg : Config) (q : String) (mx : Int) (s : Sys) :
    outExt s (searchGitHubOrganizations oracle cfg q mx s) := by
  unfold outExt searchGitHubOrganizations
  cases h : oracle (ApiCall.ghSearchUsers ("type:org " ++ q) mx) <;>
    simp [h, printResults_out, List.append_assoc, List.prefix_append]

theorem outExt_ghRepos (oracle : Oracle) (cfg : Config) (q : String) (mx : Int) (s : Sys) :
    outExt s (searchGitHubRepositories oracle cfg q mx s) := by
  unfold outExt searchGitHubRepositories
  cases h : oracle (ApiCall.ghSearchRepos q mx) <;>
    simp [h, printResults_out, List.append_assoc, List.prefix_append]

theorem outExt_ghUsers (oracle : Oracle) (cfg : Config) (q : String) (mx : Int) (s : Sys) :
    outExt s (searchGitHubUsers oracle cfg q mx s) := by
  unfold outExt searchGitHubUsers
  cases h : oracle (ApiCall.ghSearchUsers ("type:user " ++ q) mx) <;>
    simp [h, printResults_out, List.append_assoc, List.prefix_append]

theorem outExt_glProj (oracle : Oracle) (cfg : Config) (q : String) (mx : Int) (s : Sys) :
    outExt s (searchGitLabProjects oracle cfg q mx s) := by
  unfold outExt searchGitLabProjects
  cases h : oracle (ApiCall.glListProjects q mx) <;>
    simp [h, printResults_out, List.append_assoc, List.prefix_append]

theorem outExt_glGU (oracle : Oracle) (cfg : Config) (q : String) (mx : Int) (s : Sys) :
    outExt s (searchGitLabGroupsAndUsers oracle cfg q mx s) := by
  unfold outExt searchGitLabGroupsAndUsers
  cases h1 : oracle (ApiCall.glListGroups q mx)
  · simp [h1, List.prefix_append]
  · cases h2 : oracle (ApiCall.glListUsers q mx) <;>
      by_cases ho : cfg.orgFlag = true <;> by_cases hu : cfg.userFlag = true <;>
        simp [h1, h2, ho, hu, printResults_out, List.append_assoc, List.prefix_append,
          List.prefix_rfl]

theorem outExt_searchGitHub (oracle : Oracle) (client : Option Unit) (w : String)
    (cfg : Config) (s : Sys) : outExt s (searchGitHub oracle client w cfg s) := by
  cases client
  · exact outExt_rfl s
  · show outExt s (searchGitHub oracle (some ()) w cfg s)
    unfold searchGitHub
    refine outExt_trans
      (outExt_if (cfg.orgFlag = true)
        (outExt_ghOrgs oracle cfg w cfg.maxFlag s) (outExt_rfl s)) ?_
    refine outExt_trans
      (outExt_if (cfg.repoFlag = true)
        (outExt_ghRepos oracle cfg w cfg.maxFlag _) (outExt_rfl _)) ?_
    exact outExt_if (cfg.userFlag = true)
      (outExt_ghUsers oracle cfg w cfg.maxFlag _) (outExt_rfl _)

theorem outExt_searchGitLab (oracle : Oracle) (client : Option Unit) (w : String)
    (cfg : Config) (s : Sys) : outExt s (searchGitLab oracle client w cfg s) := by
  cases client
  · exact outExt_rfl s
  · show outExt s (searchGitLab oracle (some ()) w cfg s)
    unfold searchGitLab
    refine outExt_trans
      (outExt_if ((cfg.orgFlag || cfg.userFlag) = true)
        (outExt_glGU oracle cfg w cfg.maxFlag s) (outExt_rfl s)) ?_
    exact outExt_if (cfg.repoFlag = true)
      (outExt_glProj oracle cfg w cfg.maxFlag _) (outExt_rfl _)

theorem outExt_step (oracle : Oracle) (cfg : Config) (ghOk glOk : Bool) (s : Sys)
    (w : String) : outExt s (searchWordStep oracle cfg ghOk glOk s w) := by
  show outExt s
    (if (!cfg.ghOnlyFlag && glOk) = true then
      searchGitLab oracle (some ()) w cfg
        (verbosePrint cfg
          (if (!cfg.glOnlyFlag && ghOk) = true then
            searchGitHub oracle (some ()) w cfg
              (verbosePrint cfg s ("Searching GitHub for word: " ++ w))
          else s)
          ("Searching GitLab for word: " ++ w))
    else
      if (!cfg.glOnlyFlag && ghOk) = true then
        searchGitHub oracle (some ()) w cfg
          (verbosePrint cfg s ("Searching GitHub for word: " ++ w))
      else s)
  refine outExt_trans
    (outExt_if ((!cfg.glOnlyFlag && ghOk) = true)
      (outExt_trans (outExt_verbosePrint cfg s ("Searching GitHub for word: " ++ w))
        (outExt_searchGitHub oracle (some ()) w cfg
          (verbosePrint cfg s ("Searching GitHub for word: " ++ w))))
      (outExt_rfl s)) ?_
  exact outExt_if ((!cfg.ghOnlyFlag && glOk) = true)
    (outExt_trans (outExt_verbosePrint cfg _ ("Searching GitLab for word: " ++ w))
      (outExt_searchGitLab oracle (some ()) w cfg _))
    (outExt_rfl _)

theorem outExt_foldl_step (oracle : Oracle) (cfg : Config) (ghOk glOk : Bool) :
    ∀ (words : List String) (s : Sys),
    outExt s (words.foldl (searchWordStep oracle cfg ghOk glOk) s) := by
  intro words
  induction words with
  | nil => intro s; exact outExt_rfl s
  | cons w ws ih =>
    intro s
    simp only [List.foldl_cons]
    exact outExt_trans (outExt_step oracle cfg ghOk glOk s w) (ih _)

theorem searchPlatforms_ghErr_out (oracle : Oracle) (env : Env) (words : List String)
    (cfg : Config) (s : Sys) (e : String) (h : createGitHubClient env = .error e) :
    ("Error creating GitHub client: " ++ e) ∈ (searchPlatforms oracle env words cfg s).out := by
  unfold searchPlatforms
  cases hglc : createGitLabClient env <;>
    · simp only [h, hglc]
      refine outExt_mem (outExt_foldl_step oracle cfg _ _ words _) ?_
      simp

theorem readAndCleanWords_ok (cfg : Config) (args lines : List String) :
    ∃ ws, readAndCleanWords cfg args (.ok lines) = .ok ws := by
  unfold readAndCleanWords
  by_cases h : args = []
  · subst h
    simp
  · simp [h]

/-- Claim C2: an error from a remote call makes the search function print
one diagnostic and return with the file system untouched (shown for the
GitHub-organizations and the GitLab groups-and-users searches, the cited
call sites), and the platform loop still issues the calls for every other
word: with the organization category enabled, every word in the list gets
its GitHub organization-search call no matter what the oracle answers. -/
theorem searchError_isolated :
    (∀ (oracle : Oracle) (cfg : Config) (q : String) (mx : Int) (s : Sys) (e : String),
      oracle (ApiCall.ghSearchUsers ("type:org " ++ q) mx) = .error e →
      searchGitHubOrganizations oracle cfg q mx s =
        { s with
          calls := s.calls ++ [ApiCall.ghSearchUsers ("type:org " ++ q) mx],
          out := s.out ++ ["Error searching organizations: " ++ e] }) ∧
    (∀ (oracle : Oracle) (cfg : Config) (q : String) (mx : Int) (s : Sys) (e : String),
      oracle (ApiCall.glListGroups q mx) = .error e →
      searchGitLabGroupsAndUsers oracle cfg q mx s =
        { s with
          calls := s.calls ++ [ApiCall.glListGroups q mx],
          out := s.out ++ ["Error searching GitLab groups: " ++ e] }) ∧
    (∀ (oracle : Oracle) (env : Env) (words : List String) (cfg : Config) (s : Sys)
      (w : String), w ∈ words → cfg.orgFlag = true → cfg.glOnlyFlag = false →
      createGitHubClient env = .ok () →
      ApiCall.ghSearchUsers ("type:org " ++ w) cfg.maxFlag
        ∈ (searchPlatforms oracle env words cfg s).calls) ∧
    (∀ (oracle : Oracle) (env : Env) (words : List String) (cfg : Config) (s : Sys)
      (w : String), w ∈ words → (cfg.orgFlag || cfg.userFlag) = true →
      cfg.ghOnlyFlag = false → createGitLabClient env = .ok () →
      ApiCall.glListGroups w cfg.maxFlag
        ∈ (searchPlatforms oracle env words cfg s).calls) := by
  refine ⟨?_, ?_, ?_, ?_⟩
  · intro oracle cfg q mx s e h
    exact ghOrgs_error oracle cfg q mx s e h
  · intro oracle cfg q mx s e h
    exact glGU_error oracle cfg q mx s e h
  · intro oracle env words cfg s w hw ho hgl hcre
    rw [searchPlatforms_calls]
    refine List.mem_append.mpr (Or.inr ?_)
    refine mem_runCallsFor_ghOrg oracle cfg _ _ words w hw hgl ?_ ho
    rw [hcre]
    rfl
  · intro oracle env words cfg s w hw hou hgh hcre
    rw [searchPlatforms_calls]
    refine List.mem_append.mpr (Or.inr ?_)
    refine mem_runCallsFor_glGroups oracle cfg _ _ words w hw hgh ?_ hou
    rw [hcre]
    rfl

theorem searchError_isolated_witness :
    searchGitHubOrganizations oracleAllErr cfgAll "acme" 10 sys0 =
      { calls := [ApiCall.ghSearchUsers "type:org acme" 10],
        out := ["Error searching organizations: boom"], fs := [] } := by
  have h := searchError_isolated.1 oracleAllErr cfgAll "acme" 10 sys0 "boom" rfl
  simpa [sys0] using h

/-- Claim C4: each category search truncates its fixed-name file and
rewrites it whole, so a successful call leaves exactly its own results in
the file no matter what was there before, an erroring call leaves the file
system untouched, and over a whole run the organizations file holds the
results of the most recent successful organization search. -/
theorem outputFile_lastCallWins :
    (∀ (oracle : Oracle) (cfg : Config) (q : String) (mx : Int) (s : Sys) (rs : List String),
      oracle (ApiCall.ghSearchUsers ("type:org " ++ q) mx) = .ok rs →
      getFile (searchGitHubOrganizations oracle cfg q mx s).fs "github_organizations.txt"
        = some rs) ∧
    (∀ (oracle : Oracle) (cfg : Config) (q : String) (mx : Int) (s : Sys) (e : String),
      oracle (ApiCall.ghSearchUsers ("type:org " ++ q) mx) = .error e →
      (searchGitHubOrganizations oracle cfg q mx s).fs = s.fs) ∧
    (∀ (oracle : Oracle) (cfg : Config) (q : String) (mx : Int) (s : Sys) (rs : List String),
      oracle (ApiCall.glListProjects q mx) = .ok rs →
      getFile (searchGitLabProjects oracle cfg q mx s).fs "gitlab_projects.txt" = some rs) ∧
    (∀ (oracle : Oracle) (cfg : Config) (q : String) (mx : Int) (s : Sys) (e : String),
      oracle (ApiCall.glListProjects q mx) = .error e →
      (searchGitLabProjects oracle cfg q mx s).fs = s.fs) ∧
    (∀ (oracle : Oracle) (env : Env) (words : List String) (cfg : Config) (s : Sys),
      cfg.orgFlag = true → cfg.glOnlyFlag = false → createGitHubClient env = .ok () →
      getFile (searchPlatforms oracle env words cfg s).fs "github_organizations.txt"
        = lastOkWrite oracle (fun w => ApiCall.ghSearchUsers ("type:org " ++ w) cfg.maxFlag)
            words (getFile s.fs "github_organizations.txt")) := by
  refine ⟨?_, ?_, ?_, ?_, ?_⟩
  · intro oracle cfg q mx s rs h
    rw [ghOrgs_fs]
    simp [h]
  · intro oracle cfg q mx s e h
    rw [ghOrgs_error oracle cfg q mx s e h]
  · intro oracle cfg q mx s rs h
    rw [glProj_fs]
    simp [h]
  · intro oracle cfg q mx s e h
    rw [glProj_error oracle cfg q mx s e h]
  · intro oracle env words cfg s ho hgl hgh
    exact searchPlatforms_orgFile oracle env words cfg s ho hgl hgh

theorem outputFile_lastCallWins_witness :
    getFile (searchGitHubOrganizations oracleAllOk cfgAll "q" 10
      { calls := [], out := [], fs := [("github_organizations.txt", ["old"])] }).fs
      "github_organizations.txt" = some ["alpha"] :=
  outputFile_lastCallWins.1 oracleAllOk cfgAll "q" 10
    { calls := [], out := [], fs := [("github_organizations.txt", ["old"])] } ["alpha"] rfl

/-- Claim C5: with `GITHUB_ACCESS_TOKEN` unset, `searchPlatforms` prints
the client-creation error, never issues a GitHub API call, and still
issues the GitLab calls for every word whenever GitLab is enabled and its
token is present; the run itself goes on. -/
theorem missingGitHubToken_skipsGitHub :
    ∀ (oracle : Oracle) (env : Env) (words : List String) (cfg : Config) (s : Sys),
      env "GITHUB_ACCESS_TOKEN" = "" →
      ("Error creating GitHub client: GITHUB_ACCESS_TOKEN environment variable is not set"
          ∈ (searchPlatforms oracle env words cfg s).out) ∧
      (∀ c ∈ (searchPlatforms oracle env words cfg s).calls,
        c ∈ s.calls ∨ c.isGitHub = false) ∧
      (cfg.ghOnlyFlag = false → ¬ env "GITLAB_ACCESS_TOKEN" = "" →
        (cfg.orgFlag || cfg.userFlag) = true →
        ∀ w ∈ words, ApiCall.glListGroups w cfg.maxFlag
          ∈ (searchPlatforms oracle env words cfg s).calls) := by
  intro oracle env words cfg s htok
  have hghc : createGitHubClient env
      = .error "GITHUB_ACCESS_TOKEN environment variable is not set" := by
    unfold createGitHubClient
    rw [if_pos htok]
  refine ⟨?_, ?_, ?_⟩
  · exact searchPlatforms_ghErr_out oracle env words cfg s _ hghc
  · intro c hc
    rw [searchPlatforms_calls] at hc
    rcases List.mem_append.mp hc with h1 | h1
    · exact Or.inl h1
    · refine Or.inr (runCallsFor_noGH oracle cfg _ _ words ?_ c h1)
      rw [hghc]
      simp [isOkE]
  · intro hgh hglt hou w hw
    have hglc : createGitLabClient env = .ok () := by
      unfold createGitLabClient
      rw [if_neg hglt]
    rw [searchPlatforms_calls]
    refine List.mem_append.mpr (Or.inr ?_)
    refine mem_runCallsFor_glGroups oracle cfg _ _ words w hw hgh ?_ hou
    rw [hglc]
    rfl

theorem missingGitHubToken_skipsGitHub_witness :
    ApiCall.glListGroups "w" 10
      ∈ (searchPlatforms oracleAllOk envNoGitHubToken ["w"] cfgAll sys0).calls :=
  (missingGitHubToken_skipsGitHub oracleAllOk envNoGitHubToken ["w"] cfgAll sys0 rfl).2.2
    rfl (by decide) rfl "w" (by simp)

/-- Claim C6: with only `-gl` set no GitHub search call is ever issued,
whatever the environment (token presence) and oracle: every call in the
final trace either predates the run or is a GitLab call. -/
theorem glOnly_noGitHubCalls :
    ∀ (oracle : Oracle) (env : Env) (words : List String) (cfg : Config) (s : Sys),
      cfg.glOnlyFlag = true →
      ∀ c ∈ (searchPlatforms oracle env words cfg s).calls,
        c ∈ s.calls ∨ c.isGitHub = false := by
  intro oracle env words cfg s h c hc
  rw [searchPlatforms_calls] at hc
  rcases List.mem_append.mp hc with h1 | h1
  · exact Or.inl h1
  · exact Or.inr (runCallsFor_noGH oracle cfg _ _ words (by simp [h]) c h1)

theorem glOnly_noGitHubCalls_witness :
    ApiCall.glListGroups "w" 10 ∈ ([] : List ApiCall)
      ∨ (ApiCall.glListGroups "w" 10).isGitHub = false :=
  glOnly_noGitHubCalls oracleAllOk envBothTokens ["w"] cfgGlRestricted sys0 rfl
    (ApiCall.glListGroups "w" 10) (by decide)

/-- Claim C7: setting both `-gh` and `-gl` is not rejected (a run with a
category flag still validates and exits 0) and searches nothing: the loop
issues no API call at all. -/
theorem bothRestricted_noSearches :
    (∀ (oracle : Oracle) (env : Env) (words : List String) (cfg : Config) (s : Sys),
      cfg.ghOnlyFlag = true → cfg.glOnlyFlag = true →
      (searchPlatforms oracle env words cfg s).calls = s.calls) ∧
    (∀ (oracle : Oracle) (env : Env) (args lines : List String) (cfg : Config),
      cfg.ghOnlyFlag = true → cfg.glOnlyFlag = true → validateFlags cfg = true →
      (mainRun cfg args (.ok lines) env oracle).1 = 0 ∧
      (mainRun cfg args (.ok lines) env oracle).2.calls = []) := by
  constructor
  · intro oracle env words cfg s h1 h2
    rw [searchPlatforms_calls, runCallsFor_nil_of_both oracle cfg _ _ words h1 h2]
    simp
  · intro oracle env args lines cfg h1 h2 hval
    obtain ⟨ws, hws⟩ := readAndCleanWords_ok cfg args lines
    constructor
    · unfold mainRun
      simp [hval, hws]
    · unfold mainRun
      simp [hval, hws, searchPlatforms_calls, runCallsFor_nil_of_both, h1, h2, sys0]

theorem bothRestricted_noSearches_witness :
    (searchPlatforms oracleAllOk envBothTokens ["w"] cfgBothRestricted sys0).calls = [] :=
  bothRestricted_noSearches.1 oracleAllOk envBothTokens ["w"] cfgBothRestricted sys0 rfl rfl

/-- Claim C8: with no category flag the program prints the usage message
and stops with exit code 1, without reading input or issuing any API call
(the result does not depend on arguments, stdin, environment or oracle);
with a category flag and readable input the exit code is 0 for every
oracle and environment, so platform and API errors never change it. -/
theorem noCategoryFlag_exit1 :
    (∀ (cfg : Config) (args : List String) (stdin : Except String (List String))
      (env : Env) (oracle : Oracle),
      validateFlags cfg = false →
      mainRun cfg args stdin env oracle =
        (1, { calls := [],
              out := ["At least one search flag (-o, -r, or -u) must be specified"],
              fs := [] })) ∧
    (∀ (cfg : Config) (args lines : List String) (env : Env) (oracle : Oracle),
      validateFlags cfg = true →
      (mainRun cfg args (.ok lines) env oracle).1 = 0) := by
  constructor
  · intro cfg args stdin env oracle h
    unfold mainRun
    simp [h]
  · intro cfg args lines env oracle h
    obtain ⟨ws, hws⟩ := readAndCleanWords_ok cfg args lines
    unfold mainRun
    simp [h, hws]

theorem noCategoryFlag_exit1_witness :
    mainRun cfgNoCategory ["w"] (.ok []) envBothTokens oracleAllOk =
      (1, { calls := [],
            out := ["At least one search flag (-o, -r, or -u) must be specified"],
            fs := [] }) :=
  noCategoryFlag_exit1.1 cfgNoCategory ["w"] (.ok []) envBothTokens oracleAllOk rfl

/-- Claim C9: the rate-limited transport fails with exactly the limiter
error when the wait fails — without consulting the wrapped transport (the
outcome is the same for any two transports) — and otherwise forwards the
request unchanged. -/
theorem roundTrip_limiter :
    (∀ (Req Resp : Type) (e : String) (t1 t2 : Req → Except String Resp) (req : Req),
      rateLimitedRoundTrip (.error e) t1 req = .error e ∧
      rateLimitedRoundTrip (.error e) t1 req = rateLimitedRoundTrip (.error e) t2 req) ∧
    (∀ (Req Resp : Type) (t : Req → Except String Resp) (req : Req),
      rateLimitedRoundTrip (.ok ()) t req = t req) :=
  ⟨fun _ _ _ _ _ _ => ⟨rfl, rfl⟩, fun _ _ _ _ => rfl⟩

theorem roundTrip_limiter_witness :
    rateLimitedRoundTrip (Except.error "rate: Wait(n=1) would exceed context deadline")
      (fun _ : Nat => (Except.ok ["resp"] : Except String (List String))) 3
      = Except.error "rate: Wait(n=1) would exceed context deadline" :=
  (roundTrip_limiter.1 Nat (List String) "rate: Wait(n=1) would exceed context deadline"
    (fun _ => Except.ok ["resp"]) (fun _ => Except.error "other") 3).1

/-- Claim C10: with `-u` set and `-o` unset, the GitLab flow still issues
the group-search call first (its results are discarded: the groups file is
never touched), and issues the user-list call exactly when the group
search succeeded; a failing group search ends the function after one
diagnostic. -/
theorem gitLabUserFlow_groupsFirst :
    ∀ (oracle : Oracle) (cfg : Config) (q : String) (s : Sys),
      cfg.userFlag = true → cfg.orgFlag = false →
      (searchGitLab oracle (some ()) q cfg s =
        (if cfg.repoFlag then
          searchGitLabProjects oracle cfg q cfg.maxFlag
            (searchGitLabGroupsAndUsers oracle cfg q cfg.maxFlag s)
        else searchGitLabGroupsAndUsers oracle cfg q cfg.maxFlag s)) ∧
      ((searchGitLabGroupsAndUsers oracle cfg q cfg.maxFlag s).calls =
        s.calls ++ ApiCall.glListGroups q cfg.maxFlag ::
          (match oracle (ApiCall.glListGroups q cfg.maxFlag) with
           | .ok _ => [ApiCall.glListUsers q cfg.maxFlag]
           | .error _ => [])) ∧
      (getFile (searchGitLabGroupsAndUsers oracle cfg q cfg.maxFlag s).fs "gitlab_groups.txt"
        = getFile s.fs "gitlab_groups.txt") ∧
      (∀ e, oracle (ApiCall.glListGroups q cfg.maxFlag) = .error e →
        searchGitLabGroupsAndUsers oracle cfg q cfg.maxFlag s =
          { s with
            calls := s.calls ++ [ApiCall.glListGroups q cfg.maxFlag],
            out := s.out ++ ["Error searching GitLab groups: " ++ e] }) := by
  intro oracle cfg q s hu ho
  refine ⟨?_, ?_, ?_, ?_⟩
  · unfold searchGitLab
    simp [hu]
  · exact glGU_calls oracle cfg q cfg.maxFlag s
  · exact glGU_groupsFile_of_no_org oracle cfg q cfg.maxFlag s ho
  · intro e he
    exact glGU_error oracle cfg q cfg.maxFlag s e he

theorem gitLabUserFlow_groupsFirst_witness :
    getFile (searchGitLabGroupsAndUsers oracleAllOk cfgUserOnly "q" 10 sys0).fs
      "gitlab_groups.txt" = getFile sys0.fs "gitlab_groups.txt" :=
  (gitLabUserFlow_groupsFirst oracleAllOk cfgUserOnly "q" sys0 rfl rfl).2.2.1

end Dorky
